import Mathlib

/-!
Verification of the human–wildlife-conflict mining pipeline.

Shallow embedding of the two geocoding scripts:
  * `Geocoding/gecoding-base.py` (ladder mode: `normalize`, `generate_queries`,
    `geocode_row`, the module-level `cache`), and
  * `Validation Mining/webscraper-nomatim-english.py` (single-query mode:
    `get_lat_lon`, `LOCATION_CACHE`, `extract_location_from_text`'s district
    scan, the species tagging and record assembly of `run_hybrid_miner`).

Strings are `List Char`.  Latitude/longitude are `ℚ` (the scripts' float
arithmetic is only construction and comparison, never rounding-sensitive).
The external geocode service is a parameter `Svc : Str → Except Unit _`:
`.error` models a raised exception, `.ok none` a no-result answer and
`.ok (some (lat, lon))` a located answer.  Each resolver returns, besides its
result and the updated cache, the list of query strings it actually sent to
the external service, so that call-count invariants are statable.
-/

namespace HWC

abbrev Str := List Char

deriving instance DecidableEq for Except

/-- ASCII fragment of Python's `\s` / `str.strip` whitespace. -/
def isWs (c : Char) : Bool :=
  c = ' ' || c = '\t' || c = '\n' || c = '\r' || c = '\x0b' || c = '\x0c'

/-- Python `str.strip()`: drop leading and trailing whitespace. -/
def strip (l : Str) : Str := List.rdropWhile isWs (List.dropWhile isWs l)

/-- Scan for the closing `)` of a lazy `\(.*?\)` match: Python's `.` does not
match a newline, so the scan fails on `'\n'`.  Returns the suffix after the
first `)` when found. -/
def findClose : Str → Option Str
  | [] => none
  | c :: rest =>
    if c = ')' then some rest
    else if c = '\n' then none
    else findClose rest

/-- One left-to-right pass of `re.sub(r"\(.*?\)", "", text)`, with fuel
(`fuel ≥ length` always holds at the call site in `removeBrackets`). -/
def rbAux : Nat → Str → Str
  | _, [] => []
  | 0, l => l
  | fuel + 1, c :: rest =>
    if c = '(' then
      match findClose rest with
      | some rest' => rbAux fuel rest'
      | none => c :: rbAux fuel rest
    else c :: rbAux fuel rest

/-- `re.sub(r"\(.*?\)", "", text)` — remove bracketed asides. -/
def removeBrackets (l : Str) : Str := rbAux l.length l

/-- Character step of the hyphen-or-slash-to-space substitution. -/
def shChar (c : Char) : Char := if c = '-' || c = '/' then ' ' else c

/-- Replace every hyphen and slash by a space — split hybrid place names. -/
def subHyphen (l : Str) : Str := l.map shChar

/-- `re.sub(r"\s+", " ", text)`: the flag records whether the previous
character was whitespace (so the current run has already emitted its space). -/
def cwAux : Bool → Str → Str
  | _, [] => []
  | prevWs, c :: rest =>
    if isWs c then
      (if prevWs then cwAux true rest else ' ' :: cwAux true rest)
    else c :: cwAux false rest

/-- `re.sub(r"\s+", " ", text)` — collapse whitespace runs. -/
def collapseWs (l : Str) : Str := cwAux false l

/-- The string branch of `normalize` from `gecoding-base.py`:
lower-case, remove brackets, split hybrids, collapse whitespace, strip. -/
def normalizeStr (t : Str) : Str :=
  strip (collapseWs (subHyphen (removeBrackets (t.map Char.toLower))))

/-- `normalize(text)` from `gecoding-base.py`; `none` models a `pd.isna`
input (absent/NaN field), which returns the empty string. -/
def normalize : Option Str → Str
  | none => []
  | some t => normalizeStr t

/-! ## The external geocode service -/

/-- The external geocode service, as seen through `geocode(q)` /
`geocode_service(q)`: an exception (`.error`), no result (`.ok none`), or a
location with latitude and longitude (`.ok (some (lat, lon))`). -/
abbrev Svc := Str → Except Unit (Option (ℚ × ℚ))

/-! ## Ladder mode: `gecoding-base.py` -/

/-- One row of `validation-set.csv`; `none` models a NaN field. -/
structure Row where
  place : Option Str
  range_ : Option Str
  district : Option Str
deriving DecidableEq

/-- `generate_queries(row)`: the five-tier query ladder. -/
def generate_queries (row : Row) : List Str :=
  let place := normalize row.place
  let range_ := normalize row.range_
  let district := normalize row.district
  [ place ++ (", ").data ++ range_ ++ (", ").data ++ district
      ++ (", Kerala, India").data,
    place ++ (", ").data ++ district ++ (", Kerala, India").data,
    place ++ (", Kerala, India").data,
    range_ ++ (", ").data ++ district ++ (", Kerala, India").data,
    district ++ (", Kerala, India").data ]

/-- The module-level `cache` of `gecoding-base.py`: query string ↦
`(lat, lon)` (positive) or `(None, None)` (negative), modelled as
an association list where the most recent binding is first. -/
abbrev LadderCache := List (Str × Option (ℚ × ℚ))

/-- Python `cache[q]` / `q in cache` on the association list. -/
def lookupC : LadderCache → Str → Option (Option (ℚ × ℚ))
  | [], _ => none
  | (k, v) :: rest, q => if k = q then some v else lookupC rest q

/-- Result of a ladder resolution: the returned value (`.error` models an
uncaught exception escaping `geocode_row`), the cache afterwards, and the
queries sent to the external service. -/
structure LadderOut where
  result : Except Unit (Option (ℚ × ℚ))
  cache : LadderCache
  calls : List Str
deriving DecidableEq

/-- The `for q in queries:` loop of `geocode_row`: skip blank queries;
on a positive cache hit return it; on a negative cache hit continue;
on a miss call the service (an exception propagates — there is no
`try/except` in this script), cache the outcome, and return on success. -/
def tryQueries (svc : Svc) : List Str → LadderCache → LadderOut
  | [], c => ⟨.ok none, c, []⟩
  | q :: rest, c =>
    if strip q = [] then tryQueries svc rest c
    else
      match lookupC c q with
      | some (some v) => ⟨.ok (some v), c, []⟩
      | some none => tryQueries svc rest c
      | none =>
        match svc q with
        | .error e => ⟨.error e, c, [q]⟩
        | .ok (some v) => ⟨.ok (some v), (q, some v) :: c, [q]⟩
        | .ok none =>
          let o := tryQueries svc rest ((q, none) :: c)
          ⟨o.result, o.cache, q :: o.calls⟩

/-- `geocode_row(idx, row)` (the printing is irrelevant and omitted). -/
def geocode_row (svc : Svc) (row : Row) (c : LadderCache) : LadderOut :=
  tryQueries svc (generate_queries row) c

/-- The driver `[geocode_row(i, row) for i, row in df.iterrows()]`: rows are
processed sequentially against the shared cache; an uncaught exception
aborts the whole comprehension (and hence the run).  Returns the final
cache and the concatenated external-call log. -/
def runRows (svc : Svc) : List Row → LadderCache → LadderCache × List Str
  | [], c => (c, [])
  | r :: rest, c =>
    let o := geocode_row svc r c
    match o.result with
    | .error _ => (o.cache, o.calls)
    | .ok _ =>
      let p := runRows svc rest o.cache
      (p.1, o.calls ++ p.2)

/-! ## Single-query mode: `webscraper-nomatim-english.py` -/

/-- `LOCATION_CACHE`: key ↦ the pair `(lat, lon)` the hit returns; the
component type `Option ℚ` mirrors the Python tuple slots, which could in
principle hold `None`. -/
abbrev LCache := List (Str × (Option ℚ × Option ℚ))

/-- Python `key in LOCATION_CACHE` / `LOCATION_CACHE[key]`. -/
def lookupL : LCache → Str → Option (Option ℚ × Option ℚ)
  | [], _ => none
  | (k, v) :: rest, q => if k = q then some v else lookupL rest q

/-- `f"{location_name}_{district_hint}"`: Python's `str(None)` is the
four-character string `None` when the hint is absent. -/
def keyOf (location_name : Str) (district_hint : Option Str) : Str :=
  location_name ++ ('_' :: (match district_hint with
    | none => ("None").data
    | some d => d))

/-- `f"{location_name}, {district_hint if district_hint else ''}, Kerala"`
(here the falsy branch inserts the empty string). -/
def searchQueryOf (location_name : Str) (district_hint : Option Str) : Str :=
  location_name ++ (", ").data
    ++ (match district_hint with
        | none => []
        | some d => if d = [] then [] else d)
    ++ (", Kerala").data

/-- Result of `get_lat_lon`: the returned pair, the cache afterwards, and
the queries sent to the external service. -/
structure SingleOut where
  res : Option ℚ × Option ℚ
  cache : LCache
  calls : List Str
deriving DecidableEq

/-- `get_lat_lon(location_name, district_hint)`: falsy name → `(None, None)`;
cache hit → the stored pair; otherwise one external call whose result is
accepted (and cached) only if `8.0 < lat < 13.0`, with any exception caught
(`except: pass`) and treated as a miss. -/
def get_lat_lon (svc : Svc) (location_name : Option Str)
    (district_hint : Option Str) (cache : LCache) : SingleOut :=
  match location_name with
  | none => ⟨(none, none), cache, []⟩
  | some nm =>
    if nm = [] then ⟨(none, none), cache, []⟩
    else
      match lookupL cache (keyOf nm district_hint) with
      | some v => ⟨v, cache, []⟩
      | none =>
        let q := searchQueryOf nm district_hint
        match svc q with
        | .error _ => ⟨(none, none), cache, [q]⟩
        | .ok none => ⟨(none, none), cache, [q]⟩
        | .ok (some (la, lo)) =>
          if 8 < la ∧ la < 13 then
            ⟨(some la, some lo),
              (keyOf nm district_hint, (some la, some lo)) :: cache, [q]⟩
          else ⟨(none, none), cache, [q]⟩

/-- A sequence of `get_lat_lon` resolutions against the shared
`LOCATION_CACHE` (each call may face a different service behaviour). -/
def runSingle : List (Svc × Option Str × Option Str) → LCache → LCache
  | [], c => c
  | (svc, n, h) :: rest, c => runSingle rest (get_lat_lon svc n h c).cache

/-! ## District context, species tagging, record assembly -/

/-- `KERALA_DISTRICTS`, in declaration order. -/
def KERALA_DISTRICTS : List Str :=
  [("Wayanad").data, ("Idukki").data, ("Palakkad").data, ("Kannur").data,
   ("Pathanamthitta").data, ("Kollam").data, ("Kottayam").data,
   ("Thrissur").data, ("Malappuram").data, ("Kozhikode").data,
   ("Kasargod").data, ("Thiruvananthapuram").data]

/-- Python's substring containment `needle in hay`. -/
def containsSub (needle : Str) : Str → Bool
  | [] => needle.isEmpty
  | c :: rest => needle.isPrefixOf (c :: rest) || containsSub needle rest

/-- The district-context loop of `extract_location_from_text`: scan
`KERALA_DISTRICTS` in declaration order and return the first name literally
contained in the raw text. -/
def extract_district_context (text : Str) : Option Str :=
  KERALA_DISTRICTS.find? (fun dist => containsSub dist text)

/-- Position of the first occurrence of `a` in a list (used to state
first-match-in-list-order properties). -/
def idxOf {α : Type} [DecidableEq α] (a : α) : List α → Nat
  | [] => 0
  | x :: rest => if x = a then 0 else idxOf a rest + 1

/-- The species if-elif chain of `run_hybrid_miner`, applied to
`event['text'].lower()`. -/
def speciesOf (text : Str) : String :=
  let tl := text.map Char.toLower
  if containsSub ("elephant").data tl then "Elephant"
  else if containsSub ("tiger").data tl then "Tiger"
  else if containsSub ("boar").data tl then "Wild Boar"
  else if containsSub ("gaur").data tl || containsSub ("bison").data tl then
    "Gaur"
  else if containsSub ("leopard").data tl then "Leopard"
  else "Unknown"

/-- The fixed ordered species keyword list of the spec: each tier is a set
of keywords and a tag; first tier with a matching keyword wins.
Modelled from the spec to compare with the if-elif chain of the source. -/
def SPECIES_KEYWORDS : List (List Str × String) :=
  [([("elephant").data], "Elephant"),
   ([("tiger").data], "Tiger"),
   ([("boar").data], "Wild Boar"),
   ([("gaur").data, ("bison").data], "Gaur"),
   ([("leopard").data], "Leopard")]

/-- First-match scan of `SPECIES_KEYWORDS` over the lower-cased text,
`"Unknown"` when no keyword matches (the spec's description of tagging). -/
def specSpecies (text : Str) : String :=
  let tl := text.map Char.toLower
  match SPECIES_KEYWORDS.find? (fun p => p.1.any (fun k => containsSub k tl)) with
  | some p => p.2
  | none => "Unknown"

/-- A `RawEvent` as assembled in `run_hybrid_miner`. -/
structure RawEvent where
  text : Str
  date : String
  source_type : String
  url : String
deriving DecidableEq

/-- A finalized record appended to `final_data`. -/
structure Record where
  event_date : String
  hex_id : String
  latitude : ℚ
  longitude : Option ℚ
  location_name : Str
  district_context : Option Str
  species : String
  source_type : String
  description : Str
  url : String
deriving DecidableEq

/-- The per-event body of the `for event in all_events:` loop, given the
extraction outcome `(loc, district)` and the geocode outcome `ll`.  The
spatial index `h3.latlng_to_cell` is an external pure function, passed in
as `h3fn`.  `if loc:` and `if lat:` are Python truthiness tests. -/
def processEvent (h3fn : ℚ → Option ℚ → String) (ev : RawEvent)
    (loc : Option Str) (district : Option Str)
    (ll : Option ℚ × Option ℚ) : Option Record :=
  match loc with
  | none => none
  | some l =>
    if l = [] then none
    else
      match ll.1 with
      | none => none
      | some la =>
        if la = 0 then none
        else
          some { event_date := ev.date
                 hex_id := h3fn la ll.2
                 latitude := la
                 longitude := ll.2
                 location_name := l
                 district_context := district
                 species := speciesOf ev.text
                 source_type := ev.source_type
                 description := ev.text.take 100
                 url := ev.url }

/-! ## Final sort -/

/-- Insert a record into a list sorted by `event_date` descending. -/
def insertDesc (r : Record) : List Record → List Record
  | [] => [r]
  | s :: rest =>
    if s.event_date ≤ r.event_date then r :: s :: rest
    else s :: insertDesc r rest

/-- Sort by `event_date` descending (the effect of
`df.sort_values(by='event_date', ascending=False)`; event dates are always
strings — ISO dates or the `"Unknown"` sentinel — so the comparison is the
total lexicographic order on strings). -/
def sortByDateDesc : List Record → List Record
  | [] => []
  | r :: rest => insertDesc r (sortByDateDesc rest)

/-- The guarded sort: string comparison is total, so the sort always
succeeds. -/
def trySortByDateDesc (l : List Record) : Except Unit (List Record) :=
  .ok (sortByDateDesc l)

/-- The `try: df = df.sort_values(...) except: pass` block: on failure the
data keeps its insertion order. -/
def sortStep (l : List Record) : List Record :=
  match trySortByDateDesc l with
  | .ok l' => l'
  | .error _ => l

/-! ## Analysis predicates -/

/-- No `(` in the string is followed (anywhere later) by a `)`: on such
strings the bracket-removal pass is the identity. -/
def noPair : Str → Prop
  | [] => True
  | c :: rest => (c = '(' → ')' ∉ rest) ∧ noPair rest

/-! # Helper lemmas -/

theorem char_toNat_ofNat_lt (n : Nat) (h : n < 55296) : (Char.ofNat n).toNat = n := by
  have hv : n.isValidChar := Or.inl h
  simp [Char.ofNat, hv, Char.ofNatAux, Char.toNat, UInt32.toNat, BitVec.toNat_ofNatLt]

theorem toLower_toLower (c : Char) : Char.toLower (Char.toLower c) = Char.toLower c := by
  unfold Char.toLower
  by_cases h : c.toNat ≥ 65 ∧ c.toNat ≤ 90
  · rw [if_pos h]
    have h2 : (Char.ofNat (c.toNat + 32)).toNat = c.toNat + 32 :=
      char_toNat_ofNat_lt _ (by omega)
    rw [h2, if_neg (by omega)]
  · rw [if_neg h, if_neg h]

theorem toLower_newline (c : Char) (h : Char.toLower c = '\n') : c = '\n' := by
  unfold Char.toLower at h
  by_cases hc : c.toNat ≥ 65 ∧ c.toNat ≤ 90
  · rw [if_pos hc] at h
    have h2 : (Char.ofNat (c.toNat + 32)).toNat = c.toNat + 32 :=
      char_toNat_ofNat_lt _ (by omega)
    have h3 : ('\n').toNat = 10 := by decide
    rw [h] at h2
    omega
  · rwa [if_neg hc] at h

theorem mem_dropWhile_of_neg {p : Char → Bool} :
    ∀ (l : Str) (c : Char), c ∈ l → p c = false → c ∈ List.dropWhile p l
  | a :: rest, c, hc, hp => by
    by_cases ha : p a
    · rw [List.dropWhile_cons, if_pos ha]
      rcases List.mem_cons.mp hc with h | h
      · rw [h] at hp; rw [ha] at hp; cases hp
      · exact mem_dropWhile_of_neg rest c h hp
    · rw [List.dropWhile_cons, if_neg ha]
      exact hc

theorem map_eq_self_of_fixed {f : Char → Char} :
    ∀ (l : Str), (∀ c ∈ l, f c = c) → l.map f = l
  | [], _ => rfl
  | a :: rest, h => by
    simp only [List.map_cons]
    rw [h a (by simp), map_eq_self_of_fixed rest (fun c hc => h c (by simp [hc]))]

theorem strip_sublist (l : Str) : List.Sublist (strip l) l := by
  unfold strip
  have hp := List.rdropWhile_prefix isWs (List.dropWhile isWs l)
  have hs := List.dropWhile_suffix (l := l) isWs
  exact hp.sublist.trans hs.sublist

theorem strip_ne_nil (l : Str) (c : Char) (hc : c ∈ l) (hw : isWs c = false) :
    strip l ≠ [] := by
  intro h
  unfold strip at h
  rw [List.rdropWhile_eq_nil_iff] at h
  have hcd : c ∈ List.dropWhile isWs l := mem_dropWhile_of_neg l c hc hw
  have hws := h c hcd
  rw [hw] at hws
  cases hws

theorem strip_dropWhile (l : Str) :
    List.dropWhile isWs (strip l) = strip l := by
  unfold strip
  have hp := List.rdropWhile_prefix isWs (List.dropWhile isWs l)
  obtain ⟨t, ht⟩ := hp
  cases hr : List.rdropWhile isWs (List.dropWhile isWs l) with
  | nil => simp
  | cons a r' =>
    rw [hr] at ht
    have hh : (List.dropWhile isWs l).head? = some a := by
      rw [← ht]; rfl
    have hna := List.head?_dropWhile_not isWs l
    simp only [hh] at hna
    rw [List.dropWhile_cons, if_neg (by simp [hna])]

theorem strip_idem (l : Str) : strip (strip l) = strip l := by
  have h := strip_dropWhile l
  unfold strip at h ⊢
  rw [h, List.rdropWhile_idempotent]

/-! ### Bracket removal -/

theorem findClose_none_of_not_mem : ∀ (l : Str), ')' ∉ l → findClose l = none
  | [], _ => rfl
  | c :: rest, h => by
    have hc : c ≠ ')' := fun hh => h (by simp [hh])
    rw [findClose, if_neg hc]
    by_cases hn : c = '\n'
    · rw [if_pos hn]
    · rw [if_neg hn]
      exact findClose_none_of_not_mem rest (fun hm => h (by simp [hm]))

theorem not_mem_of_findClose_none :
    ∀ (l : Str), findClose l = none → '\n' ∉ l → ')' ∉ l
  | [], _, _ => by simp
  | c :: rest, h, hnl => by
    rw [findClose] at h
    by_cases hc : c = ')'
    · rw [if_pos hc] at h; cases h
    · rw [if_neg hc] at h
      by_cases hn : c = '\n'
      · exact absurd (by simp [hn]) hnl
      · rw [if_neg hn] at h
        have ih := not_mem_of_findClose_none rest h (fun hm => hnl (by simp [hm]))
        simp only [List.mem_cons, not_or]
        exact ⟨fun hh => hc hh.symm, ih⟩

theorem findClose_decomp :
    ∀ (l l' : Str), findClose l = some l' → ∃ p, l = p ++ ')' :: l'
  | c :: rest, l', h => by
    rw [findClose] at h
    by_cases hc : c = ')'
    · rw [if_pos hc] at h
      injection h with h'
      exact ⟨[], by simp [hc, h']⟩
    · rw [if_neg hc] at h
      by_cases hn : c = '\n'
      · rw [if_pos hn] at h; cases h
      · rw [if_neg hn] at h
        obtain ⟨p, hp⟩ := findClose_decomp rest l' h
        exact ⟨c :: p, by simp [hp]⟩

theorem rbAux_sublist : ∀ (fuel : Nat) (l : Str), List.Sublist (rbAux fuel l) l
  | _, [] => by simp [rbAux]
  | 0, c :: rest => by
    simp only [rbAux]
    exact List.Sublist.refl _
  | fuel + 1, c :: rest => by
    rw [rbAux]
    by_cases hc : c = '('
    · rw [if_pos hc]
      cases hfc : findClose rest with
      | some rest' =>
        obtain ⟨p, hp⟩ := findClose_decomp rest rest' hfc
        have h1 := rbAux_sublist fuel rest'
        have hsuf : rest' <:+ rest := ⟨p ++ [')'], by simp [hp]⟩
        exact ((h1.trans hsuf.sublist).trans (List.sublist_cons_self c rest))
      | none => exact List.Sublist.cons₂ c (rbAux_sublist fuel rest)
    · rw [if_neg hc]
      exact List.Sublist.cons₂ c (rbAux_sublist fuel rest)

theorem noPair_sublist : ∀ {l' l : Str}, List.Sublist l' l → noPair l → noPair l'
  | _, _, List.Sublist.slnil, _ => trivial
  | _, _, List.Sublist.cons a h, hnp => by
    simp only [noPair] at hnp
    exact noPair_sublist h hnp.2
  | _, _, List.Sublist.cons₂ a h, hnp => by
    simp only [noPair] at hnp ⊢
    exact ⟨fun ha hm => hnp.1 ha (h.subset hm), noPair_sublist h hnp.2⟩

theorem noPair_rbAux :
    ∀ (fuel : Nat) (l : Str), l.length ≤ fuel → '\n' ∉ l → noPair (rbAux fuel l)
  | _, [], _, _ => by simp [rbAux, noPair]
  | 0, c :: rest, hlen, _ => by simp at hlen
  | fuel + 1, c :: rest, hlen, hnl => by
    have hnlr : '\n' ∉ rest := fun h => hnl (by simp [h])
    have hlen' : rest.length ≤ fuel := by simp at hlen; omega
    rw [rbAux]
    by_cases hc : c = '('
    · rw [if_pos hc]
      cases hfc : findClose rest with
      | some rest' =>
        obtain ⟨p, hp⟩ := findClose_decomp rest rest' hfc
        have hlen2 : rest'.length ≤ fuel := by
          have hl2 := congrArg List.length hp
          simp at hl2
          omega
        have hnl2 : '\n' ∉ rest' := fun h => hnlr (by rw [hp]; simp [h])
        exact noPair_rbAux fuel rest' hlen2 hnl2
      | none =>
        have hnp : ')' ∉ rest := not_mem_of_findClose_none rest hfc hnlr
        have ih := noPair_rbAux fuel rest hlen' hnlr
        simp only [noPair]
        exact ⟨fun _ hm => hnp ((rbAux_sublist fuel rest).subset hm), ih⟩
    · rw [if_neg hc]
      have ih := noPair_rbAux fuel rest hlen' hnlr
      simp only [noPair]
      exact ⟨fun hcc => absurd hcc hc, ih⟩

theorem rbAux_eq_self_of_noPair : ∀ (fuel : Nat) (l : Str), noPair l → rbAux fuel l = l
  | _, [], _ => by simp [rbAux]
  | 0, c :: rest, _ => rfl
  | fuel + 1, c :: rest, h => by
    simp only [noPair] at h
    rw [rbAux]
    by_cases hc : c = '('
    · rw [if_pos hc, findClose_none_of_not_mem rest (h.1 hc)]
      rw [rbAux_eq_self_of_noPair fuel rest h.2]
    · rw [if_neg hc, rbAux_eq_self_of_noPair fuel rest h.2]

theorem removeBrackets_eq_self_of_noPair (l : Str) (h : noPair l) :
    removeBrackets l = l :=
  rbAux_eq_self_of_noPair l.length l h

theorem noPair_removeBrackets (l : Str) (h : '\n' ∉ l) :
    noPair (removeBrackets l) :=
  noPair_rbAux l.length l le_rfl h

/-! ### Hyphen substitution -/

theorem shChar_eq_open (c : Char) (h : shChar c = '(') : c = '(' := by
  unfold shChar at h
  by_cases hc : c = '-' || c = '/'
  · rw [if_pos hc] at h
    exact absurd h (by decide)
  · rwa [if_neg hc] at h

theorem shChar_eq_close (c : Char) (h : shChar c = ')') : c = ')' := by
  unfold shChar at h
  by_cases hc : c = '-' || c = '/'
  · rw [if_pos hc] at h
    exact absurd h (by decide)
  · rwa [if_neg hc] at h

theorem shChar_ne_dash (c : Char) : shChar c ≠ '-' ∧ shChar c ≠ '/' := by
  unfold shChar
  by_cases hc : c = '-' || c = '/'
  · rw [if_pos hc]
    exact ⟨by decide, by decide⟩
  · rw [if_neg hc]
    simp only [Bool.or_eq_true, decide_eq_true_eq, not_or] at hc
    exact ⟨hc.1, hc.2⟩

theorem noPair_subHyphen : ∀ (l : Str), noPair l → noPair (subHyphen l)
  | [], _ => trivial
  | c :: rest, h => by
    simp only [noPair] at h
    simp only [subHyphen, List.map_cons, noPair]
    constructor
    · intro hc hm
      rw [List.mem_map] at hm
      obtain ⟨a, ha, hae⟩ := hm
      have ha' : a = ')' := shChar_eq_close a hae
      rw [ha'] at ha
      exact h.1 (shChar_eq_open c hc) ha
    · have ih := noPair_subHyphen rest h.2
      simpa [subHyphen] using ih

/-! ### Whitespace collapsing -/

theorem mem_cwAux_strong :
    ∀ (flag : Bool) (l : Str) (c : Char), c ∈ cwAux flag l →
      c = ' ' ∨ (c ∈ l ∧ isWs c = false)
  | _, [], _, h => by simp [cwAux] at h
  | flag, a :: rest, c, h => by
    rw [cwAux] at h
    by_cases ha : isWs a
    · rw [if_pos ha] at h
      cases flag with
      | true =>
        rcases mem_cwAux_strong true rest c (by simpa using h) with h1 | h2
        · exact Or.inl h1
        · exact Or.inr ⟨by simp [h2.1], h2.2⟩
      | false =>
        rcases List.mem_cons.mp (by simpa using h) with h1 | h1
        · exact Or.inl h1
        · rcases mem_cwAux_strong true rest c h1 with h2 | h3
          · exact Or.inl h2
          · exact Or.inr ⟨by simp [h3.1], h3.2⟩
    · rw [if_neg ha] at h
      rcases List.mem_cons.mp h with h1 | h1
      · exact Or.inr ⟨by simp [h1], by rw [h1]; simpa using ha⟩
      · rcases mem_cwAux_strong false rest c h1 with h2 | h3
        · exact Or.inl h2
        · exact Or.inr ⟨by simp [h3.1], h3.2⟩

theorem noPair_cwAux : ∀ (flag : Bool) (l : Str), noPair l → noPair (cwAux flag l)
  | _, [], _ => by simp [cwAux, noPair]
  | flag, a :: rest, h => by
    simp only [noPair] at h
    rw [cwAux]
    by_cases ha : isWs a
    · rw [if_pos ha]
      cases flag with
      | true => exact noPair_cwAux true rest h.2
      | false =>
        simp only [noPair]
        exact ⟨fun hsp => absurd hsp (by decide), by simpa using noPair_cwAux true rest h.2⟩
    · rw [if_neg ha]
      simp only [noPair]
      refine ⟨fun hA hm => ?_, noPair_cwAux false rest h.2⟩
      rcases mem_cwAux_strong false rest ')' hm with h1 | h2
      · exact absurd h1 (by decide)
      · exact h.1 hA h2.1

theorem cwAux_true_head :
    ∀ (l : Str) (a : Char) (t : Str), cwAux true l = a :: t → isWs a = false
  | [], a, t, h => by simp [cwAux] at h
  | c :: rest, a, t, h => by
    rw [cwAux] at h
    by_cases hc : isWs c
    · rw [if_pos hc] at h
      exact cwAux_true_head rest a t (by simpa using h)
    · rw [if_neg hc] at h
      injection h with h1 _
      rw [← h1]
      simpa using hc

theorem chain_cwAux :
    ∀ (flag : Bool) (l : Str),
      List.Chain' (fun a b => ¬(isWs a = true ∧ isWs b = true)) (cwAux flag l)
  | _, [] => by simp [cwAux]
  | flag, c :: rest => by
    rw [cwAux]
    by_cases hc : isWs c
    · rw [if_pos hc]
      cases flag with
      | true => exact chain_cwAux true rest
      | false =>
        show List.Chain' (fun a b => ¬(isWs a = true ∧ isWs b = true))
          (' ' :: cwAux true rest)
        rw [List.chain'_cons']
        constructor
        · intro y hy
          cases hh : cwAux true rest with
          | nil => rw [hh] at hy; simp at hy
          | cons b t =>
            rw [hh] at hy
            simp only [List.head?_cons, Option.mem_some_iff] at hy
            have hb := cwAux_true_head rest b t hh
            rw [hy] at hb
            intro hcon
            rw [hb] at hcon
            exact absurd hcon.2 (by simp)
        · exact chain_cwAux true rest
    · rw [if_neg hc]
      rw [List.chain'_cons']
      constructor
      · exact fun y _ hcon => hc hcon.1
      · exact chain_cwAux false rest

theorem cwAux_true_eq_false (l : Str)
    (h : ∀ a t, l = a :: t → isWs a = false) :
    cwAux true l = cwAux false l := by
  cases l with
  | nil => rfl
  | cons a t =>
    have ha := h a t rfl
    rw [cwAux, cwAux, if_neg (by simp [ha]), if_neg (by simp [ha])]

theorem cwAux_eq_self : ∀ (l : Str),
    (∀ c ∈ l, isWs c = true → c = ' ') →
    List.Chain' (fun a b => ¬(isWs a = true ∧ isWs b = true)) l →
    cwAux false l = l
  | [], _, _ => rfl
  | c :: rest, hws, hch => by
    have hch2 := (List.chain'_cons'.mp hch).2
    have hr := cwAux_eq_self rest (fun d hd hw => hws d (by simp [hd]) hw) hch2
    rw [cwAux]
    by_cases hc : isWs c
    · rw [if_pos hc]
      have hcsp : c = ' ' := hws c (by simp) hc
      have hhead : ∀ a t, rest = a :: t → isWs a = false := by
        intro a t ht
        have h1 := (List.chain'_cons'.mp hch).1 a (by rw [ht]; rfl)
        by_cases hb : isWs a
        · exact absurd ⟨hc, hb⟩ h1
        · simpa using hb
      show ' ' :: cwAux true rest = c :: rest
      rw [cwAux_true_eq_false rest hhead, hr, hcsp]
    · rw [if_neg hc, hr]

/-! ### Characters of a normalized string -/

theorem normalizeStr_char_fixed (t : Str) :
    ∀ c ∈ normalizeStr t,
      Char.toLower c = c ∧ c ≠ '-' ∧ c ≠ '/' ∧ (isWs c = true → c = ' ') := by
  intro c hc
  unfold normalizeStr at hc
  have hc1 := (strip_sublist _).subset hc
  rcases mem_cwAux_strong false _ c hc1 with hsp | ⟨hc2, hnw⟩
  · rw [hsp]
    exact ⟨by decide, by decide, by decide, fun _ => rfl⟩
  · rw [subHyphen, List.mem_map] at hc2
    obtain ⟨a, ha, hae⟩ := hc2
    have ha2 : a ∈ t.map Char.toLower := (rbAux_sublist _ _).subset ha
    rw [List.mem_map] at ha2
    obtain ⟨b, _, hbe⟩ := ha2
    have hdash := shChar_ne_dash a
    by_cases hd : a = '-' || a = '/'
    · exfalso
      have : c = ' ' := by rw [← hae]; unfold shChar; rw [if_pos hd]
      rw [this] at hnw
      exact absurd hnw (by decide)
    · have hca : c = a := by rw [← hae]; unfold shChar; rw [if_neg hd]
      refine ⟨?_, by rw [← hae]; exact hdash.1, by rw [← hae]; exact hdash.2, ?_⟩
      · rw [hca, ← hbe]
        exact toLower_toLower b
      · intro hw
        rw [hw] at hnw
        cases hnw


theorem noPair_normalizeStr (t : Str) (h : '\n' ∉ t) : noPair (normalizeStr t) := by
  unfold normalizeStr collapseWs
  apply noPair_sublist (strip_sublist _)
  apply noPair_cwAux
  apply noPair_subHyphen
  apply noPair_removeBrackets
  intro hm
  rw [List.mem_map] at hm
  obtain ⟨a, ha, hae⟩ := hm
  exact h (by rwa [toLower_newline a hae] at ha)

theorem chain_normalizeStr (t : Str) :
    List.Chain' (fun a b => ¬(isWs a = true ∧ isWs b = true)) (normalizeStr t) := by
  unfold normalizeStr collapseWs strip
  have h0 := chain_cwAux false (subHyphen (removeBrackets (t.map Char.toLower)))
  have h1 := h0.suffix (List.dropWhile_suffix isWs)
  have hp := List.rdropWhile_prefix isWs
    (List.dropWhile isWs (cwAux false (subHyphen (removeBrackets (t.map Char.toLower)))))
  exact List.Chain'.prefix h1 hp

theorem normalizeStr_idem (x : Str) (hx : '\n' ∉ x) :
    normalizeStr (normalizeStr x) = normalizeStr x := by
  have hfix := normalizeStr_char_fixed x
  have hnp := noPair_normalizeStr x hx
  have hch := chain_normalizeStr x
  have h1 : (normalizeStr x).map Char.toLower = normalizeStr x :=
    map_eq_self_of_fixed _ (fun c hc => (hfix c hc).1)
  have h2 : removeBrackets (normalizeStr x) = normalizeStr x :=
    removeBrackets_eq_self_of_noPair _ hnp
  have h3 : subHyphen (normalizeStr x) = normalizeStr x :=
    map_eq_self_of_fixed _ (fun c hc => by
      unfold shChar
      rw [if_neg (by simp [(hfix c hc).2.1, (hfix c hc).2.2.1])])
  have h4 : collapseWs (normalizeStr x) = normalizeStr x :=
    cwAux_eq_self _ (fun c hc hw => (hfix c hc).2.2.2 hw) hch
  show strip (collapseWs (subHyphen (removeBrackets
    ((normalizeStr x).map Char.toLower)))) = normalizeStr x
  rw [h1, h2, h3, h4]
  unfold normalizeStr
  exact strip_idem _

/-! ### Ladder-cache lemmas -/

theorem lookupC_cons_self (k : Str) (v : Option (ℚ × ℚ)) (c : LadderCache) :
    lookupC ((k, v) :: c) k = some v := by
  rw [lookupC, if_pos rfl]

theorem lookupC_cons_none (k q : Str) (v : Option (ℚ × ℚ)) (c : LadderCache)
    (h : lookupC ((k, v) :: c) q = none) : k ≠ q ∧ lookupC c q = none := by
  rw [lookupC] at h
  by_cases hk : k = q
  · rw [if_pos hk] at h; cases h
  · rw [if_neg hk] at h; exact ⟨hk, h⟩

theorem tryQueries_spec (svc : Svc) :
    ∀ (qs : List Str) (c : LadderCache),
      (tryQueries svc qs c).calls.Nodup
      ∧ (∀ q ∈ (tryQueries svc qs c).calls, lookupC c q = none)
      ∧ (∀ k, lookupC (tryQueries svc qs c).cache k = none → lookupC c k = none)
      ∧ ((∀ e, (tryQueries svc qs c).result ≠ .error e) →
          ∀ q ∈ (tryQueries svc qs c).calls, lookupC (tryQueries svc qs c).cache q ≠ none)
  | [], c => by simp [tryQueries]
  | q :: rest, c => by
    rw [tryQueries]
    by_cases hq : strip q = []
    · rw [if_pos hq]
      exact tryQueries_spec svc rest c
    · rw [if_neg hq]
      cases hl : lookupC c q with
      | some v =>
        cases v with
        | some w => simp
        | none => exact tryQueries_spec svc rest c
      | none =>
        cases hs : svc q with
        | error e =>
          refine ⟨by simp, ?_, ?_, ?_⟩
          · intro x hx
            simp only [List.mem_singleton] at hx
            rw [hx]; exact hl
          · intro k h; exact h
          · intro hne; exact absurd rfl (hne e)
        | ok r =>
          cases r with
          | some w =>
            refine ⟨by simp, ?_, ?_, ?_⟩
            · intro x hx
              simp only [List.mem_singleton] at hx
              rw [hx]; exact hl
            · intro k h
              exact (lookupC_cons_none _ _ _ _ h).2
            · intro _ x hx
              simp only [List.mem_singleton] at hx
              rw [hx, lookupC_cons_self]
              simp
          | none =>
            obtain ⟨ih1, ih2, ih3, ih4⟩ := tryQueries_spec svc rest ((q, none) :: c)
            simp only []
            refine ⟨?_, ?_, ?_, ?_⟩
            · rw [List.nodup_cons]
              refine ⟨fun hmem => ?_, ih1⟩
              have := ih2 q hmem
              rw [lookupC_cons_self] at this
              cases this
            · intro x hx
              rcases List.mem_cons.mp hx with h1 | h1
              · rw [h1]; exact hl
              · exact (lookupC_cons_none _ _ _ _ (ih2 x h1)).2
            · intro k h
              exact (lookupC_cons_none _ _ _ _ (ih3 k h)).2
            · intro hne x hx
              rcases List.mem_cons.mp hx with h1 | h1
              · rw [h1]
                intro hnone
                have := ih3 q hnone
                rw [lookupC_cons_self] at this
                cases this
              · exact ih4 hne x h1

theorem runRows_spec (svc : Svc) :
    ∀ (rows : List Row) (c : LadderCache),
      (runRows svc rows c).2.Nodup
      ∧ (∀ q ∈ (runRows svc rows c).2, lookupC c q = none)
      ∧ (∀ k, lookupC (runRows svc rows c).1 k = none → lookupC c k = none)
  | [], c => by simp [runRows]
  | r :: rest, c => by
    obtain ⟨t1, t2, t3, t4⟩ := tryQueries_spec svc (generate_queries r) c
    rw [runRows]
    cases hres : (geocode_row svc r c).result with
    | error e =>
      simp only [geocode_row] at hres ⊢
      exact ⟨t1, t2, t3⟩
    | ok v =>
      obtain ⟨ih1, ih2, ih3⟩ := runRows_spec svc rest (geocode_row svc r c).cache
      simp only [geocode_row] at hres ih1 ih2 ih3 ⊢
      have hne : ∀ e, (tryQueries svc (generate_queries r) c).result ≠ .error e := by
        intro e h
        rw [hres] at h
        cases h
      refine ⟨?_, ?_, ?_⟩
      · rw [List.nodup_append]
        refine ⟨t1, ih1, ?_⟩
        intro a ha hb
        exact absurd (ih2 a hb) (t4 hne a ha)
      · intro x hx
        rcases List.mem_append.mp hx with h1 | h1
        · exact t2 x h1
        · exact t3 x (ih2 x h1)
      · intro k h
        exact t3 k (ih3 k h)

/-! ### Single-query branch lemmas -/

theorem lookupL_cons_self (k : Str) (v : Option ℚ × Option ℚ) (c : LCache) :
    lookupL ((k, v) :: c) k = some v := by
  rw [lookupL, if_pos rfl]

theorem get_lat_lon_hit (svc : Svc) (nm : Str) (hint : Option Str)
    (c : LCache) (v : Option ℚ × Option ℚ) (hnm : nm ≠ [])
    (h : lookupL c (keyOf nm hint) = some v) :
    get_lat_lon svc (some nm) hint c = ⟨v, c, []⟩ := by
  simp [get_lat_lon, hnm, h]

theorem get_lat_lon_error (svc : Svc) (nm : Str) (hint : Option Str)
    (c : LCache) (hnm : nm ≠ [])
    (h : lookupL c (keyOf nm hint) = none)
    (hs : svc (searchQueryOf nm hint) = .error ()) :
    get_lat_lon svc (some nm) hint c = ⟨(none, none), c, [searchQueryOf nm hint]⟩ := by
  simp [get_lat_lon, hnm, h, hs]

theorem get_lat_lon_nores (svc : Svc) (nm : Str) (hint : Option Str)
    (c : LCache) (hnm : nm ≠ [])
    (h : lookupL c (keyOf nm hint) = none)
    (hs : svc (searchQueryOf nm hint) = .ok none) :
    get_lat_lon svc (some nm) hint c = ⟨(none, none), c, [searchQueryOf nm hint]⟩ := by
  simp [get_lat_lon, hnm, h, hs]

theorem get_lat_lon_found_in (svc : Svc) (nm : Str) (hint : Option Str)
    (c : LCache) (la lo : ℚ) (hnm : nm ≠ [])
    (h : lookupL c (keyOf nm hint) = none)
    (hs : svc (searchQueryOf nm hint) = .ok (some (la, lo)))
    (hin : 8 < la ∧ la < 13) :
    get_lat_lon svc (some nm) hint c
      = ⟨(some la, some lo), (keyOf nm hint, (some la, some lo)) :: c,
         [searchQueryOf nm hint]⟩ := by
  simp [get_lat_lon, hnm, h, hs, hin]

theorem get_lat_lon_found_out (svc : Svc) (nm : Str) (hint : Option Str)
    (c : LCache) (la lo : ℚ) (hnm : nm ≠ [])
    (h : lookupL c (keyOf nm hint) = none)
    (hs : svc (searchQueryOf nm hint) = .ok (some (la, lo)))
    (hout : ¬(8 < la ∧ la < 13)) :
    get_lat_lon svc (some nm) hint c
      = ⟨(none, none), c, [searchQueryOf nm hint]⟩ := by
  simp [get_lat_lon, hnm, h, hs, hout]

/-! ### `find?` returns the first match in list order -/

theorem find_first_of_mem {α : Type} [DecidableEq α] (p : α → Bool) :
    ∀ (l : List α) (a : α), a ∈ l → p a = true →
      ∃ b, l.find? p = some b ∧ p b = true ∧ idxOf b l ≤ idxOf a l
  | x :: rest, a, ha, hpa => by
    by_cases hx : p x
    · refine ⟨x, by rw [List.find?_cons_of_pos _ hx], hx, ?_⟩
      rw [idxOf, if_pos rfl]
      exact Nat.zero_le _
    · have hax : a ≠ x := fun h => by rw [h] at hpa; rw [hpa] at hx; exact hx rfl
      have ha' : a ∈ rest := by
        rcases List.mem_cons.mp ha with h | h
        · exact absurd h hax
        · exact h
      obtain ⟨b, hb1, hb2, hb3⟩ := find_first_of_mem p rest a ha' hpa
      have hbx : x ≠ b := fun h => by rw [← h] at hb2; rw [hb2] at hx; exact hx rfl
      refine ⟨b, by rw [List.find?_cons_of_neg _ hx]; exact hb1, hb2, ?_⟩
      rw [idxOf, if_neg hbx, idxOf, if_neg (Ne.symm hax)]
      exact Nat.succ_le_succ hb3

/-! ### Insertion sort by event date, descending -/

theorem insertDesc_perm (r : Record) :
    ∀ (l : List Record), List.Perm (insertDesc r l) (r :: l)
  | [] => List.Perm.refl _
  | s :: rest => by
    rw [insertDesc]
    by_cases h : s.event_date ≤ r.event_date
    · rw [if_pos h]
    · rw [if_neg h]
      exact (List.Perm.cons s (insertDesc_perm r rest)).trans (List.Perm.swap r s rest)

theorem sortByDateDesc_perm :
    ∀ (l : List Record), List.Perm (sortByDateDesc l) l
  | [] => List.Perm.refl _
  | r :: rest => by
    rw [sortByDateDesc]
    exact ((insertDesc_perm r (sortByDateDesc rest)).trans
      (List.Perm.cons r (sortByDateDesc_perm rest)))

theorem insertDesc_pairwise (r : Record) :
    ∀ (l : List Record),
      l.Pairwise (fun a b => b.event_date ≤ a.event_date) →
      (insertDesc r l).Pairwise (fun a b => b.event_date ≤ a.event_date)
  | [], _ => by rw [insertDesc]; exact List.pairwise_singleton _ _
  | s :: rest, h => by
    rw [List.pairwise_cons] at h
    rw [insertDesc]
    by_cases hsr : s.event_date ≤ r.event_date
    · rw [if_pos hsr]
      rw [List.pairwise_cons]
      refine ⟨?_, List.pairwise_cons.mpr h⟩
      intro b hb
      rcases List.mem_cons.mp hb with h1 | h1
      · rw [h1]; exact hsr
      · exact le_trans (h.1 b h1) hsr
    · rw [if_neg hsr]
      rw [List.pairwise_cons]
      refine ⟨?_, insertDesc_pairwise r rest h.2⟩
      intro b hb
      rcases List.mem_cons.mp ((insertDesc_perm r rest).mem_iff.mp hb) with h1 | h1
      · rw [h1]
        exact le_of_not_le hsr
      · exact h.1 b h1

theorem sortByDateDesc_pairwise :
    ∀ (l : List Record),
      (sortByDateDesc l).Pairwise (fun a b => b.event_date ≤ a.event_date)
  | [] => by simp [sortByDateDesc]
  | r :: rest => by
    rw [sortByDateDesc]
    exact insertDesc_pairwise r _ (sortByDateDesc_pairwise rest)

/-! ### Species tagging and record assembly -/

theorem speciesOf_eq_specSpecies (text : Str) : speciesOf text = specSpecies text := by
  cases h1 : containsSub ("elephant").data (text.map Char.toLower) <;>
  cases h2 : containsSub ("tiger").data (text.map Char.toLower) <;>
  cases h3 : containsSub ("boar").data (text.map Char.toLower) <;>
  cases h4 : containsSub ("gaur").data (text.map Char.toLower) <;>
  cases h5 : containsSub ("bison").data (text.map Char.toLower) <;>
  cases h6 : containsSub ("leopard").data (text.map Char.toLower) <;>
    simp [speciesOf, specSpecies, SPECIES_KEYWORDS, List.find?, h1, h2, h3, h4, h5, h6]

theorem processEvent_none_coords (h3fn : ℚ → Option ℚ → String) (ev : RawEvent)
    (loc : Option Str) (district : Option Str) (lo : Option ℚ) :
    processEvent h3fn ev loc district (none, lo) = none := by
  cases loc with
  | none => rfl
  | some l =>
    by_cases hl : l = []
    · simp [processEvent, hl]
    · simp [processEvent, hl]

theorem processEvent_species (h3fn : ℚ → Option ℚ → String) (ev : RawEvent)
    (loc : Option Str) (district : Option Str) (ll : Option ℚ × Option ℚ)
    (r : Record) (h : processEvent h3fn ev loc district ll = some r) :
    r.species = speciesOf ev.text := by
  unfold processEvent at h
  cases loc with
  | none => cases h
  | some l =>
    dsimp only at h
    by_cases hl : l = []
    · rw [if_pos hl] at h; cases h
    · rw [if_neg hl] at h
      cases hll : ll.1 with
      | none => rw [hll] at h; cases h
      | some la =>
        rw [hll] at h
        dsimp only at h
        by_cases hz : la = 0
        · rw [if_pos hz] at h; cases h
        · rw [if_neg hz] at h
          injection h with h'
          rw [← h']

/-! ### The ladder never produces a blank query -/

theorem generate_queries_strip_ne (r : Row) :
    ∀ q ∈ generate_queries r, strip q ≠ [] := by
  intro q hq
  unfold generate_queries at hq
  simp only [List.mem_cons, List.not_mem_nil, or_false] at hq
  rcases hq with h | h | h | h | h <;>
    (rw [h]
     refine strip_ne_nil _ 'K' (List.mem_append.mpr (Or.inr (by decide))) (by decide))

/-! ### Ladder branch computations -/

theorem tq_skip (svc : Svc) (q : Str) (rest : List Str) (c : LadderCache)
    (h : strip q = []) : tryQueries svc (q :: rest) c = tryQueries svc rest c := by
  rw [tryQueries, if_pos h]

theorem tq_hit_pos (svc : Svc) (q : Str) (rest : List Str) (c : LadderCache)
    (w : ℚ × ℚ) (h1 : strip q ≠ []) (hl : lookupC c q = some (some w)) :
    tryQueries svc (q :: rest) c = ⟨.ok (some w), c, []⟩ := by
  rw [tryQueries, if_neg h1, hl]

theorem tq_hit_neg (svc : Svc) (q : Str) (rest : List Str) (c : LadderCache)
    (h1 : strip q ≠ []) (hl : lookupC c q = some none) :
    tryQueries svc (q :: rest) c = tryQueries svc rest c := by
  rw [tryQueries, if_neg h1, hl]

theorem tq_miss_error (svc : Svc) (q : Str) (rest : List Str) (c : LadderCache)
    (e : Unit) (h1 : strip q ≠ []) (hl : lookupC c q = none)
    (hs : svc q = .error e) :
    tryQueries svc (q :: rest) c = ⟨.error e, c, [q]⟩ := by
  rw [tryQueries, if_neg h1, hl, hs]

theorem tq_miss_found (svc : Svc) (q : Str) (rest : List Str) (c : LadderCache)
    (w : ℚ × ℚ) (h1 : strip q ≠ []) (hl : lookupC c q = none)
    (hs : svc q = .ok (some w)) :
    tryQueries svc (q :: rest) c = ⟨.ok (some w), (q, some w) :: c, [q]⟩ := by
  rw [tryQueries, if_neg h1, hl, hs]

theorem tq_miss_none (svc : Svc) (q : Str) (rest : List Str) (c : LadderCache)
    (h1 : strip q ≠ []) (hl : lookupC c q = none)
    (hs : svc q = .ok none) :
    tryQueries svc (q :: rest) c
      = ⟨(tryQueries svc rest ((q, none) :: c)).result,
         (tryQueries svc rest ((q, none) :: c)).cache,
         q :: (tryQueries svc rest ((q, none) :: c)).calls⟩ := by
  rw [tryQueries, if_neg h1, hl, hs]

theorem tryQueries_two_hit (svc : Svc) (q1 q2 : Str) (tail : List Str)
    (c : LadderCache) (v : ℚ × ℚ)
    (h1 : strip q1 ≠ []) (h2 : strip q2 ≠ [])
    (hq2 : lookupC c q2 = some (some v)) :
    tryQueries svc (q1 :: q2 :: tail) c = tryQueries svc [q1, q2] c
    ∧ (tryQueries svc (q1 :: q2 :: tail) c).calls ⊆ [q1]
    ∧ (∀ v1, lookupC c q1 = some v1 →
        (tryQueries svc (q1 :: q2 :: tail) c).calls = []
        ∧ ∃ w, (tryQueries svc (q1 :: q2 :: tail) c).result = .ok (some w)) := by
  cases hl1 : lookupC c q1 with
  | some v1 =>
    cases hv1 : v1 with
    | some w =>
      rw [hv1] at hl1
      rw [tq_hit_pos svc q1 _ c w h1 hl1, tq_hit_pos svc q1 _ c w h1 hl1]
      exact ⟨rfl, by simp, fun _ _ => ⟨rfl, w, rfl⟩⟩
    | none =>
      rw [hv1] at hl1
      rw [tq_hit_neg svc q1 _ c h1 hl1, tq_hit_neg svc q1 _ c h1 hl1,
          tq_hit_pos svc q2 _ c v h2 hq2, tq_hit_pos svc q2 _ c v h2 hq2]
      exact ⟨rfl, by simp, fun _ _ => ⟨rfl, v, rfl⟩⟩
  | none =>
    have hne : q1 ≠ q2 := by
      intro h
      rw [h, hq2] at hl1
      cases hl1
    cases hs1 : svc q1 with
    | error e =>
      rw [tq_miss_error svc q1 _ c e h1 hl1 hs1, tq_miss_error svc q1 _ c e h1 hl1 hs1]
      refine ⟨rfl, by simp, fun v1 hv1 => ?_⟩
      cases hv1
    | ok res =>
      cases res with
      | some w =>
        rw [tq_miss_found svc q1 _ c w h1 hl1 hs1, tq_miss_found svc q1 _ c w h1 hl1 hs1]
        refine ⟨rfl, by simp, fun v1 hv1 => ?_⟩
        cases hv1
      | none =>
        have hcons : lookupC ((q1, none) :: c) q2 = some (some v) := by
          rw [lookupC, if_neg hne, hq2]
        rw [tq_miss_none svc q1 _ c h1 hl1 hs1, tq_miss_none svc q1 _ c h1 hl1 hs1,
            tq_hit_pos svc q2 _ ((q1, none) :: c) v h2 hcons,
            tq_hit_pos svc q2 _ ((q1, none) :: c) v h2 hcons]
        refine ⟨rfl, by simp, fun v1 hv1 => ?_⟩
        cases hv1

/-! ### Lower-casing twice equals lower-casing once -/

theorem lower_lower_map (text : Str) :
    (text.map Char.toLower).map Char.toLower = text.map Char.toLower := by
  rw [List.map_map]
  exact List.map_congr_left (fun a _ => toLower_toLower a)

/-! ### The single-query cache only ever stores in-bounds positives -/

theorem get_lat_lon_cache_good (svc : Svc) (n hint : Option Str) (c : LCache)
    (hc : ∀ p ∈ c, ∃ la lo, p.2 = (some la, some lo) ∧ 8 < la ∧ la < 13) :
    ∀ p ∈ (get_lat_lon svc n hint c).cache,
      ∃ la lo, p.2 = (some la, some lo) ∧ 8 < la ∧ la < 13 := by
  intro p hp
  cases n with
  | none => exact hc p hp
  | some nm =>
    by_cases hnm : nm = []
    · simp only [get_lat_lon, hnm, if_pos] at hp
      exact hc p hp
    · cases hl : lookupL c (keyOf nm hint) with
      | some v' =>
        rw [get_lat_lon_hit svc nm hint c v' hnm hl] at hp
        exact hc p hp
      | none =>
        cases hs : svc (searchQueryOf nm hint) with
        | error e =>
          cases e
          rw [get_lat_lon_error svc nm hint c hnm hl hs] at hp
          exact hc p hp
        | ok res =>
          cases res with
          | none =>
            rw [get_lat_lon_nores svc nm hint c hnm hl hs] at hp
            exact hc p hp
          | some pr =>
            obtain ⟨la, lo⟩ := pr
            by_cases hin : 8 < la ∧ la < 13
            · rw [get_lat_lon_found_in svc nm hint c la lo hnm hl hs hin] at hp
              rcases List.mem_cons.mp hp with h1 | h1
              · rw [h1]
                exact ⟨la, lo, rfl, hin.1, hin.2⟩
              · exact hc p h1
            · rw [get_lat_lon_found_out svc nm hint c la lo hnm hl hs hin] at hp
              exact hc p hp

theorem runSingle_cache_good :
    ∀ (calls : List (Svc × Option Str × Option Str)) (c : LCache),
      (∀ p ∈ c, ∃ la lo, p.2 = (some la, some lo) ∧ 8 < la ∧ la < 13) →
      ∀ p ∈ runSingle calls c,
        ∃ la lo, p.2 = (some la, some lo) ∧ 8 < la ∧ la < 13
  | [], _, hc => hc
  | (svc, n, h) :: rest, c, hc => by
    rw [runSingle]
    exact runSingle_cache_good rest _ (get_lat_lon_cache_good svc n h c hc)

/-! # Claims -/

/-- C1 (amended): in ladder mode, for every fixed query string the external
geocode service is called at most once across an entire run — the
external-call log of processing any row list from the empty cache has no
duplicate query string, repeats (including negative outcomes) being answered
from the cache.  In single-query mode this holds only for queries whose
resolution was positive: a repeat of a positively resolved request is
answered from the cache with no external call, but a negative resolution is
not cached — the cache is left unchanged and the one call is logged, so a
repeat faces a cache miss again. -/
theorem c1_cache_at_most_once :
    (∀ (svc : Svc) (rows : List Row), ((runRows svc rows []).2).Nodup)
    ∧ (∀ (svc svc' : Svc) (nm : Str) (hint : Option Str) (c : LCache) (la : ℚ),
        (get_lat_lon svc (some nm) hint c).res.1 = some la →
        get_lat_lon svc' (some nm) hint (get_lat_lon svc (some nm) hint c).cache
          = ⟨(get_lat_lon svc (some nm) hint c).res,
             (get_lat_lon svc (some nm) hint c).cache, []⟩)
    ∧ (∀ (svc : Svc) (nm : Str) (hint : Option Str) (c : LCache),
        nm ≠ [] → lookupL c (keyOf nm hint) = none →
        (get_lat_lon svc (some nm) hint c).res.1 = none →
        (get_lat_lon svc (some nm) hint c).cache = c
          ∧ (get_lat_lon svc (some nm) hint c).calls = [searchQueryOf nm hint]) := by
  refine ⟨fun svc rows => (runRows_spec svc rows []).1, ?_, ?_⟩
  · intro svc svc' nm hint c la h
    by_cases hnm : nm = []
    · simp [get_lat_lon, hnm] at h
    · cases hl : lookupL c (keyOf nm hint) with
      | some val =>
        rw [get_lat_lon_hit svc nm hint c val hnm hl]
        exact get_lat_lon_hit svc' nm hint c val hnm hl
      | none =>
        cases hs : svc (searchQueryOf nm hint) with
        | error e =>
          cases e
          rw [get_lat_lon_error svc nm hint c hnm hl hs] at h
          simp at h
        | ok res =>
          cases res with
          | none =>
            rw [get_lat_lon_nores svc nm hint c hnm hl hs] at h
            simp at h
          | some pr =>
            obtain ⟨la', lo⟩ := pr
            by_cases hin : 8 < la' ∧ la' < 13
            · rw [get_lat_lon_found_in svc nm hint c la' lo hnm hl hs hin]
              exact get_lat_lon_hit svc' nm hint _ _ hnm (lookupL_cons_self _ _ _)
            · rw [get_lat_lon_found_out svc nm hint c la' lo hnm hl hs hin] at h
              simp at h
  · intro svc nm hint c hnm hmiss hres
    cases hs : svc (searchQueryOf nm hint) with
    | error e =>
      cases e
      rw [get_lat_lon_error svc nm hint c hnm hmiss hs]
      exact ⟨rfl, rfl⟩
    | ok res =>
      cases res with
      | none =>
        rw [get_lat_lon_nores svc nm hint c hnm hmiss hs]
        exact ⟨rfl, rfl⟩
      | some pr =>
        obtain ⟨la, lo⟩ := pr
        by_cases hin : 8 < la ∧ la < 13
        · rw [get_lat_lon_found_in svc nm hint c la lo hnm hmiss hs hin] at hres
          simp at hres
        · rw [get_lat_lon_found_out svc nm hint c la lo hnm hmiss hs hin]
          exact ⟨rfl, rfl⟩

/-- C1 witness: a positively resolved query (latitude 9) is cached, and the
identical repeat — even against a service that now fails — is answered from
the cache with an empty call log. -/
theorem c1_cache_at_most_once_witness :
    ((get_lat_lon (fun _ => Except.ok (some (9, 76))) (some ("X").data) none
        []).res.1 = some 9)
    ∧ get_lat_lon (fun _ => Except.ok none) (some ("X").data) none
        ((get_lat_lon (fun _ => Except.ok (some (9, 76))) (some ("X").data) none
          []).cache)
      = ⟨(get_lat_lon (fun _ => Except.ok (some (9, 76))) (some ("X").data) none
            []).res,
         (get_lat_lon (fun _ => Except.ok (some (9, 76))) (some ("X").data) none
            []).cache, []⟩ :=
  ⟨by decide, c1_cache_at_most_once.2.1 _ _ _ _ _ 9 (by decide)⟩

/-- C1 counterexample: in single-query mode a repeat of a query whose first
resolution was negative issues a second external call (its call log is not
empty), so the "at most one external call per query string, repeats served
from cache including negative results" claim fails for the single-query
resolver. -/
theorem c1_counterexample :
    (get_lat_lon (fun _ => Except.ok none) (some ("X").data) none
        ((get_lat_lon (fun _ => Except.ok none) (some ("X").data) none
          []).cache)).calls ≠ [] := by decide

/-- C2 (amended): in ladder mode, when the second-tier query string is cached
with valid coordinates the resolver never goes past the second tier — its
behaviour equals running the two-query ladder, any external call it issues is
for the first-tier query only, and when the first-tier query is also answered
from the cache it returns cached coordinates with no external call at all. -/
theorem c2_ladder_short_circuit (svc : Svc) (r : Row) (c : LadderCache)
    (q1 q2 q3 q4 q5 : Str) (v : ℚ × ℚ)
    (hgen : generate_queries r = [q1, q2, q3, q4, q5])
    (hq2 : lookupC c q2 = some (some v)) :
    geocode_row svc r c = tryQueries svc [q1, q2] c
    ∧ (geocode_row svc r c).calls ⊆ [q1]
    ∧ (∀ v1, lookupC c q1 = some v1 →
        (geocode_row svc r c).calls = []
        ∧ ∃ w, (geocode_row svc r c).result = Except.ok (some w)) := by
  have h1 : strip q1 ≠ [] := generate_queries_strip_ne r q1 (by rw [hgen]; simp)
  have h2 : strip q2 ≠ [] := generate_queries_strip_ne r q2 (by rw [hgen]; simp)
  rw [geocode_row, hgen]
  exact tryQueries_two_hit svc q1 q2 [q3, q4, q5] c v h1 h2 hq2

/-- C2 witness: with the second-tier query `a, c, Kerala, India` cached
positive, resolving the row `(a, b, c)` behaves exactly like the two-tier
ladder — the last three tiers are never attempted. -/
theorem c2_ladder_short_circuit_witness :
    (generate_queries ⟨some ("a").data, some ("b").data, some ("c").data⟩
        = [("a, b, c, Kerala, India").data, ("a, c, Kerala, India").data,
           ("a, Kerala, India").data, ("b, c, Kerala, India").data,
           ("c, Kerala, India").data]
      ∧ lookupC [(("a, c, Kerala, India").data, some ((9 : ℚ), (76 : ℚ)))]
          (("a, c, Kerala, India").data) = some (some (9, 76)))
    ∧ geocode_row (fun _ => Except.ok none)
        ⟨some ("a").data, some ("b").data, some ("c").data⟩
        [(("a, c, Kerala, India").data, some (9, 76))]
      = tryQueries (fun _ => Except.ok none)
          [("a, b, c, Kerala, India").data, ("a, c, Kerala, India").data]
          [(("a, c, Kerala, India").data, some (9, 76))] :=
  ⟨⟨by decide, by decide⟩,
    (c2_ladder_short_circuit (fun _ => Except.ok none)
      ⟨some ("a").data, some ("b").data, some ("c").data⟩
      [(("a, c, Kerala, India").data, some (9, 76))]
      (("a, b, c, Kerala, India").data) (("a, c, Kerala, India").data)
      (("a, Kerala, India").data) (("b, c, Kerala, India").data)
      (("c, Kerala, India").data) (9, 76) (by decide) (by decide)).1⟩

/-- C2 counterexample: the second-tier query `a, c, Kerala, India` is cached
with coordinates (9, 76), yet the resolver issues an external call (for the
first-tier query, a cache miss) and returns that call's (50, 60) instead of
the cached coordinates — refuting "returns those cached coordinates and
issues no external geocode call". -/
theorem c2_counterexample :
    lookupC [(("a, c, Kerala, India").data, some ((9 : ℚ), (76 : ℚ)))]
        (("a, c, Kerala, India").data) = some (some (9, 76))
    ∧ (geocode_row (fun _ => Except.ok (some (50, 60)))
        ⟨some ("a").data, some ("b").data, some ("c").data⟩
        [(("a, c, Kerala, India").data, some (9, 76))]).calls ≠ []
    ∧ (geocode_row (fun _ => Except.ok (some (50, 60)))
        ⟨some ("a").data, some ("b").data, some ("c").data⟩
        [(("a, c, Kerala, India").data, some (9, 76))]).result
      ≠ Except.ok (some (9, 76)) := by
  exact ⟨by decide, by decide, by decide⟩

/-- C3: in single-query mode, an external result whose latitude is not
strictly between 8.0 and 13.0 yields absent coordinates and leaves the cache
completely unchanged (in particular no positive entry is written). -/
theorem c3_bounds_validation (svc : Svc) (nm : Str) (hint : Option Str)
    (c : LCache) (la lo : ℚ) (hnm : nm ≠ [])
    (hmiss : lookupL c (keyOf nm hint) = none)
    (hsvc : svc (searchQueryOf nm hint) = Except.ok (some (la, lo)))
    (hout : ¬(8 < la ∧ la < 13)) :
    get_lat_lon svc (some nm) hint c
      = ⟨(none, none), c, [searchQueryOf nm hint]⟩ :=
  get_lat_lon_found_out svc nm hint c la lo hnm hmiss hsvc hout

/-- C3 witness: a service returning latitude 20 (outside (8, 13)) makes
`get_lat_lon` return `(None, None)` and leaves the empty cache empty. -/
theorem c3_bounds_validation_witness :
    (("X").data ≠ ([] : Str)
      ∧ lookupL [] (keyOf ("X").data none) = none
      ∧ (fun _ => (Except.ok (some ((20 : ℚ), (77 : ℚ)))
            : Except Unit (Option (ℚ × ℚ))))
          (searchQueryOf ("X").data none) = Except.ok (some (20, 77))
      ∧ ¬((8 : ℚ) < 20 ∧ (20 : ℚ) < 13))
    ∧ get_lat_lon (fun _ => Except.ok (some (20, 77))) (some ("X").data) none []
        = ⟨(none, none), [], [searchQueryOf ("X").data none]⟩ :=
  ⟨⟨by decide, by decide, rfl, by decide⟩,
    c3_bounds_validation _ _ _ _ _ _ (by decide) (by decide) rfl (by decide)⟩

/-- C4 (amended): in single-query mode an exception from the external service
is caught and treated as a negative result for that one query — the resolver
returns `(None, None)` with the cache unchanged.  In ladder mode there is no
handler: an exception on the first cache-missing query propagates out of
`geocode_row`, aborting the cascade with the cache unchanged. -/
theorem c4_exception_handling :
    (∀ (svc : Svc) (nm : Str) (hint : Option Str) (c : LCache),
        nm ≠ [] → lookupL c (keyOf nm hint) = none →
        svc (searchQueryOf nm hint) = Except.error () →
        get_lat_lon svc (some nm) hint c
          = ⟨(none, none), c, [searchQueryOf nm hint]⟩)
    ∧ (∀ (svc : Svc) (r : Row) (c : LadderCache) (q1 : Str) (qrest : List Str),
        generate_queries r = q1 :: qrest →
        lookupC c q1 = none → svc q1 = Except.error () →
        geocode_row svc r c = ⟨Except.error (), c, [q1]⟩) := by
  constructor
  · exact fun svc nm hint c hnm hm hs => get_lat_lon_error svc nm hint c hnm hm hs
  · intro svc r c q1 qrest hgen hl hs
    have h1 : strip q1 ≠ [] :=
      generate_queries_strip_ne r q1 (by rw [hgen]; simp)
    rw [geocode_row, hgen]
    exact tq_miss_error svc q1 qrest c () h1 hl hs

/-- C4 witness: a single-query resolution against a service that raises
returns `(None, None)`, leaves the cache unchanged, and logs the one call. -/
theorem c4_exception_handling_witness :
    (("X").data ≠ ([] : Str)
      ∧ lookupL [] (keyOf ("X").data none) = none
      ∧ (fun _ => (Except.error () : Except Unit (Option (ℚ × ℚ))))
          (searchQueryOf ("X").data none) = Except.error ())
    ∧ get_lat_lon (fun _ => Except.error ()) (some ("X").data) none []
        = ⟨(none, none), [], [searchQueryOf ("X").data none]⟩ :=
  ⟨⟨by decide, by decide, rfl⟩,
    c4_exception_handling.1 _ _ _ _ (by decide) (by decide) rfl⟩

/-- C4 counterexample: in ladder mode, a service that raises on the
first-tier query but would succeed on the second-tier query makes
`geocode_row` abort with the exception — the cascade does not continue, so
"any exception … is caught … and does not abort the cascade" fails for the
ladder resolver. -/
theorem c4_counterexample :
    (geocode_row
        (fun q => if q = ("a, b, c, Kerala, India").data then Except.error ()
          else Except.ok (some (9, 76)))
        ⟨some ("a").data, some ("b").data, some ("c").data⟩ []).result
      = Except.error ()
    ∧ (fun q => if q = ("a, b, c, Kerala, India").data then
          (Except.error () : Except Unit (Option (ℚ × ℚ)))
        else Except.ok (some (9, 76))) (("a, c, Kerala, India").data)
      = Except.ok (some (9, 76)) := by
  exact ⟨by decide, by decide⟩

/-- C5: the district context is the first district of the fixed
`KERALA_DISTRICTS` list (in declaration order) whose name occurs in the text:
whenever some district `d` occurs in the text, the extractor returns a
district that also occurs in the text and whose index in the fixed list is
minimal (at most that of `d`) — regardless of where the names occur in the
text. -/
theorem c5_district_precedence (text : Str) (d : Str)
    (hd : d ∈ KERALA_DISTRICTS) (hc : containsSub d text = true) :
    ∃ d', extract_district_context text = some d'
      ∧ containsSub d' text = true
      ∧ idxOf d' KERALA_DISTRICTS ≤ idxOf d KERALA_DISTRICTS := by
  obtain ⟨b, h1, h2, h3⟩ :=
    find_first_of_mem (fun dist => containsSub dist text) KERALA_DISTRICTS d hd hc
  exact ⟨b, h1, h2, h3⟩

/-- C5 witness: in `Palakkad and Wayanad` the text mentions Palakkad first,
yet the returned context has a list index at most that of Palakkad — it is
Wayanad, the earliest matching entry of the fixed district list. -/
theorem c5_district_precedence_witness :
    (("Palakkad").data ∈ KERALA_DISTRICTS
      ∧ containsSub ("Palakkad").data ("Palakkad and Wayanad").data = true)
    ∧ ∃ d', extract_district_context ("Palakkad and Wayanad").data = some d'
        ∧ containsSub d' ("Palakkad and Wayanad").data = true
        ∧ idxOf d' KERALA_DISTRICTS
            ≤ idxOf (("Palakkad").data) KERALA_DISTRICTS :=
  ⟨⟨by decide, by decide⟩, c5_district_precedence _ _ (by decide) (by decide)⟩

/-- C6 (amended): the normalizer is idempotent on every input string that
contains no newline character, and an absent input normalizes to the empty
string.  (With a newline between brackets idempotence genuinely fails: the
first pass cannot remove the bracketed span — `.` does not match a newline —
but it rewrites the newline to a space, so a second pass removes the span.) -/
theorem c6_normalize_idempotent :
    (∀ x : Str, '\n' ∉ x →
        normalize (some (normalize (some x))) = normalize (some x))
    ∧ normalize none = [] := by
  refine ⟨fun x hx => ?_, rfl⟩
  show normalizeStr (normalizeStr x) = normalizeStr x
  exact normalizeStr_idem x hx

/-- C6 witness: normalizing `Hello (World) - Test` twice equals normalizing
it once. -/
theorem c6_normalize_idempotent_witness :
    ('\n' ∉ ("Hello (World) - Test").data)
    ∧ normalize (some (normalize (some ("Hello (World) - Test").data)))
        = normalize (some ("Hello (World) - Test").data) :=
  ⟨by decide, c6_normalize_idempotent.1 _ (by decide)⟩

/-- C6 counterexample: for the input `(a\nb)` one pass yields `(a b)` but a
second pass yields the empty string, so `normalize (normalize x) = normalize
x` fails for all strings. -/
theorem c6_counterexample :
    normalize (some (normalize (some ("(a\nb)").data)))
      ≠ normalize (some ("(a\nb)").data) := by decide

/-- C7 (amended): the single-query cache key is the place, `_`, and the
district hint — or the literal four-character string `None` (Python's
`str(None)`) when the hint is absent, not the empty string; a cache hit under
that key is returned with no external call, and a cache miss issues exactly
one external geocode call, for the search query built from the place and
hint. -/
theorem c7_cache_key (svc : Svc) (nm : Str) (hint : Option Str) (c : LCache)
    (hnm : nm ≠ []) :
    (keyOf nm none = nm ++ ("_None").data
      ∧ ∀ d, keyOf nm (some d) = nm ++ ('_' :: d))
    ∧ (∀ v, lookupL c (keyOf nm hint) = some v →
        get_lat_lon svc (some nm) hint c = ⟨v, c, []⟩)
    ∧ (lookupL c (keyOf nm hint) = none →
        (get_lat_lon svc (some nm) hint c).calls = [searchQueryOf nm hint]) := by
  refine ⟨⟨rfl, fun d => rfl⟩,
    fun v hv => get_lat_lon_hit svc nm hint c v hnm hv, fun hm => ?_⟩
  cases hs : svc (searchQueryOf nm hint) with
  | error e =>
    cases e
    rw [get_lat_lon_error svc nm hint c hnm hm hs]
  | ok res =>
    cases res with
    | none => rw [get_lat_lon_nores svc nm hint c hnm hm hs]
    | some pr =>
      obtain ⟨la, lo⟩ := pr
      by_cases hin : 8 < la ∧ la < 13
      · rw [get_lat_lon_found_in svc nm hint c la lo hnm hm hs hin]
      · rw [get_lat_lon_found_out svc nm hint c la lo hnm hm hs hin]

/-- C7 witness: with a hit stored under the actual key `X_None`, the resolver
returns the stored pair with no external call. -/
theorem c7_cache_key_witness :
    ("X").data ≠ ([] : Str)
    ∧ get_lat_lon (fun _ => Except.ok none) (some ("X").data) none
        [(("X_None").data, (some 9, some 76))]
      = ⟨(some 9, some 76), [(("X_None").data, (some 9, some 76))], []⟩ :=
  ⟨by decide,
    (c7_cache_key (fun _ => Except.ok none) ("X").data none
      [(("X_None").data, (some 9, some 76))] (by decide)).2.1 _ (by decide)⟩

/-- C7 counterexample: an entry stored under the claim's key — place, `_`,
empty string for an absent hint — is not consulted: the resolver still
misses, issues an external call, and returns `(None, None)`, because the
code's key ends in the literal `None`. -/
theorem c7_counterexample :
    lookupL [(("X_").data, (some 9, some 76))] (("X").data ++ ['_'])
        = some (some 9, some 76)
    ∧ (get_lat_lon (fun _ => Except.ok none) (some ("X").data) none
        [(("X_").data, (some 9, some 76))]).calls ≠ []
    ∧ (get_lat_lon (fun _ => Except.ok none) (some ("X").data) none
        [(("X_").data, (some 9, some 76))]).res = (none, none) := by
  exact ⟨by decide, by decide, by decide⟩

/-- C8: the species tag equals the first-match scan of the fixed ordered
keyword list (elephant, tiger, boar, gaur-or-bison, leopard) over the
lower-cased event text, with `Unknown` when nothing matches; the scan is
case-insensitive; and an event whose geocoding produced no latitude is
dropped before species tagging (no record is assembled), while every
assembled record carries exactly the scanned species. -/
theorem c8_species_tagging :
    (∀ text : Str, speciesOf text = specSpecies text)
    ∧ (∀ text : Str, speciesOf (text.map Char.toLower) = speciesOf text)
    ∧ (∀ (h3fn : ℚ → Option ℚ → String) (ev : RawEvent)
        (loc district : Option Str) (lo : Option ℚ),
        processEvent h3fn ev loc district (none, lo) = none)
    ∧ (∀ (h3fn : ℚ → Option ℚ → String) (ev : RawEvent)
        (loc district : Option Str) (ll : Option ℚ × Option ℚ) (r : Record),
        processEvent h3fn ev loc district ll = some r →
        r.species = specSpecies ev.text) := by
  refine ⟨speciesOf_eq_specSpecies, ?_, processEvent_none_coords, ?_⟩
  · intro text
    unfold speciesOf
    rw [lower_lower_map]
  · intro h3fn ev loc district ll r h
    rw [processEvent_species h3fn ev loc district ll r h]
    exact speciesOf_eq_specSpecies ev.text

/-- C8 witness: a concrete tiger event with coordinates assembles into a
record whose species is the first-match scan result `Tiger`. -/
theorem c8_species_tagging_witness :
    processEvent (fun _ _ => "h")
        ⟨("tiger here").data, "2024-01-01", "News/Blog", ""⟩
        (some ("x").data) none (some 9, some 76)
      = some { event_date := "2024-01-01", hex_id := "h", latitude := 9,
               longitude := some 76, location_name := ("x").data,
               district_context := none, species := "Tiger",
               source_type := "News/Blog", description := ("tiger here").data,
               url := "" }
    ∧ ({ event_date := "2024-01-01", hex_id := "h", latitude := 9,
         longitude := some 76, location_name := ("x").data,
         district_context := none, species := "Tiger",
         source_type := "News/Blog", description := ("tiger here").data,
         url := "" } : Record).species
        = specSpecies ("tiger here").data :=
  ⟨by decide,
    c8_species_tagging.2.2.2 (fun _ _ => "h")
      ⟨("tiger here").data, "2024-01-01", "News/Blog", ""⟩
      (some ("x").data) none (some 9, some 76)
      { event_date := "2024-01-01", hex_id := "h", latitude := 9,
        longitude := some 76, location_name := ("x").data,
        district_context := none, species := "Tiger",
        source_type := "News/Blog", description := ("tiger here").data,
        url := "" } (by decide)⟩

/-- C9: the sorting step cannot raise — the guarded sort always returns
`ok` (event dates, ISO strings or the `Unknown` sentinel, compare under the
total lexicographic string order) — and its output is a permutation of the
assembled records sorted by event date descending; the `except` fallback to
insertion order is present in `sortStep` but unreachable. -/
theorem c9_sort_date_desc :
    (∀ l : List Record, trySortByDateDesc l = Except.ok (sortByDateDesc l))
    ∧ (∀ l : List Record, (sortStep l).Perm l)
    ∧ (∀ l : List Record,
        (sortStep l).Pairwise (fun a b => b.event_date ≤ a.event_date)) := by
  refine ⟨fun l => rfl, fun l => ?_, fun l => ?_⟩
  · show (sortByDateDesc l).Perm l
    exact sortByDateDesc_perm l
  · show (sortByDateDesc l).Pairwise (fun a b => b.event_date ≤ a.event_date)
    exact sortByDateDesc_pairwise l

/-- C10: starting from the empty cache, after any sequence of single-query
resolutions every value stored in the cache is a pair of present coordinates
whose latitude lies strictly between 8.0 and 13.0 — the single-query cache
never holds a negative or out-of-bounds entry. -/
theorem c10_single_cache_invariant
    (calls : List (Svc × Option Str × Option Str)) (k : Str)
    (v : Option ℚ × Option ℚ) (hmem : (k, v) ∈ runSingle calls []) :
    ∃ la lo, v = (some la, some lo) ∧ 8 < la ∧ la < 13 := by
  have h := runSingle_cache_good calls [] (by simp) (k, v) hmem
  simpa using h

/-- C10 witness: after one successful resolution the cache holds exactly one
entry, whose value is the in-bounds pair `(some 9, some 76)`. -/
theorem c10_single_cache_invariant_witness :
    ((keyOf ("X").data none, ((some 9 : Option ℚ), (some 76 : Option ℚ)))
        ∈ runSingle [(fun _ => Except.ok (some (9, 76)), some ("X").data, none)] [])
    ∧ ∃ la lo, ((some 9 : Option ℚ), (some 76 : Option ℚ)) = (some la, some lo)
        ∧ 8 < la ∧ la < 13 :=
  ⟨by decide,
    c10_single_cache_invariant
      [(fun _ => Except.ok (some (9, 76)), some ("X").data, none)]
      (keyOf ("X").data none) ((some 9 : Option ℚ), (some 76 : Option ℚ))
      (by decide)⟩

end HWC
